import Mathlib

/-!
Verification of the `mbox` crate's core memory-management semantics.

The Rust sources (`src/internal.rs`, `src/free.rs`, `src/mbox.rs`) are shallowly
embedded as state transformers over an explicit heap transcript.  Machine
pointers become natural-number addresses; the heap records, per address, the
allocated slots (`none` = uninitialized, `some v` = initialized with `v`), and
transcript fields log every interaction with the real C allocator (`malloc`,
`realloc`, `free`) as well as every destructor invocation performed through
`drop_in_place`.  Element byte-size enters only through the overflow checks, so
the embedding carries it as an explicit `size` parameter (zero for zero-sized
pointee types), while blocks are measured in element slots.
-/

namespace Mbox

/-- Width bound of Rust `usize` arithmetic (64-bit targets). -/
def USIZE : Nat := 2 ^ 64

/-- Model of `NonNull::dangling()`: the canonical non-null sentinel address for
zero-sized allocations.  Real allocations receive addresses `≥ 2`. -/
def dangling : Nat := 1

/-- Rust's `usize::checked_mul`: `some` product below `2^64`, `none` on overflow. -/
def checkedMul (a b : Nat) : Option Nat :=
  if a * b < USIZE then some (a * b) else none

/-- Fatal (non-returning) allocation failures: `.panicked` models the
`.expect("memory overflow")` panic in `gen_malloc`, `.allocError` models
`handle_alloc_error`. Neither is ever returned as an ordinary value. -/
inductive AllocFatal : Type
  | panicked
  | allocError
deriving DecidableEq

/-- Heap transcript.  `blocks` maps an address to the slots of the live
allocation there (if any); the remaining fields log calls to the real
allocator primitives and destructor invocations, in order. -/
structure Heap (α : Type) where
  blocks : Nat → Option (List (Option α))
  next : Nat
  mallocs : Nat
  reallocLog : List Nat
  frees : List Nat
  drops : List α

/-- The empty heap: no live allocation, fresh addresses start at 2. -/
def Heap.empty (α : Type) : Heap α :=
  ⟨fun _ => none, 2, 0, [], [], []⟩

/-- Slots of the block at address `p` (empty for an address with no block). -/
def Heap.slots (h : Heap α) (p : Nat) : List (Option α) :=
  (h.blocks p).getD []

/-- Real `malloc`: hands out a fresh address with `count` uninitialized element
slots.  The model allocator always succeeds, but its result type keeps the
`Option` so the caller's null check is embedded faithfully. -/
def mallocPrim (h : Heap α) (count : Nat) : Option Nat × Heap α :=
  (some h.next,
   { h with
      blocks := fun a => if a = h.next then some (List.replicate count none) else h.blocks a
      next := h.next + 1
      mallocs := h.mallocs + 1 })

/-- Real `free`: removes the block and logs the released address. -/
def freePrim (h : Heap α) (p : Nat) : Heap α :=
  { h with
      blocks := fun a => if a = p then none else h.blocks a
      frees := h.frees ++ [p] }

/-- Contents of a block after the real `realloc` resizes it to `n` slots:
the first `min(old, n)` slots are preserved, growth is uninitialized. -/
def resizeSlots (slots : List (Option α)) (n : Nat) : List (Option α) :=
  slots.take n ++ List.replicate (n - slots.length) none

/-- Real `realloc`: resizes the block in place (a legal behavior of the C
primitive; relocation would not affect the properties proved below because
callers only ever use the returned handle) and logs the requested new count. -/
def reallocPrim (h : Heap α) (p : Nat) (newCount : Nat) : Option Nat × Heap α :=
  (some p,
   { h with
      blocks := fun a => if a = p then (h.blocks p).map (fun s => resizeSlots s newCount) else h.blocks a
      reallocLog := h.reallocLog ++ [newCount] })

/-- The null check applied to a real allocator result (`internal.rs` lines
92-95 and 127-131): a null pointer is a fatal allocation error, never
propagated as a handle. -/
def checkNull (r : Option Nat × Heap α) : Except AllocFatal (Nat × Heap α) :=
  match r with
  | (none, _) => .error .allocError
  | (some p, h) => .ok (p, h)

/-- `internal.rs` `gen_malloc`: sentinel for zero-sized pointee or zero count
without touching the real allocator; otherwise checked size multiplication
(panic on overflow), real `malloc`, and the null check. -/
def gen_malloc (size count : Nat) (h : Heap α) : Except AllocFatal (Nat × Heap α) :=
  if size = 0 ∨ count = 0 then
    .ok (dangling, h)
  else
    match checkedMul count size with
    | none => .error .panicked
    | some _ => checkNull (mallocPrim h count)

/-- `internal.rs` `gen_free`: no-op on the sentinel, otherwise the real `free`. -/
def gen_free (h : Heap α) (p : Nat) : Heap α :=
  if p = dangling then h else freePrim h p

/-- `internal.rs` `gen_realloc`: zero-sized pointee returns the handle
unchanged; zero new count frees and returns the sentinel; a sentinel handle
delegates to `gen_malloc`; otherwise checked multiplication (fatal on
overflow), real `realloc`, and the null check. -/
def gen_realloc (size : Nat) (p : Nat) (newCount : Nat) (h : Heap α) :
    Except AllocFatal (Nat × Heap α) :=
  if size = 0 then
    .ok (p, h)
  else if newCount = 0 then
    .ok (dangling, gen_free h p)
  else if p = dangling then
    gen_malloc size newCount h
  else
    match checkedMul newCount size with
    | none => .error .allocError
    | some _ => checkNull (reallocPrim h p newCount)

/-- Reads slot `i` of the block at `p` (the value at `*(p.offset i)`). -/
def readSlot (h : Heap α) (p i : Nat) : Option α :=
  (h.slots p).getD i none

/-- Writes value `v` into slot `i` of the block at `p` (`ptr::write`).  Runs no
destructor on the previous slot content. -/
def writeSlot (h : Heap α) (p i : Nat) (v : α) : Heap α :=
  { h with
      blocks := fun a => if a = p then (h.blocks p).map (fun s => s.set i (some v)) else h.blocks a }

/-- `ptr::drop_in_place` over the slot range `[start, start+len)` of the block
at `p`: invokes the destructor of every initialized element there, in index
order, logging each invocation. -/
def dropRange (h : Heap α) (p start len : Nat) : Heap α :=
  { h with drops := h.drops ++ (((h.slots p).drop start).take len).reduceOption }

/-- The initialized values in the first `len` slots of the block at `p`. -/
def readRange (h : Heap α) (p len : Nat) : List α :=
  ((h.slots p).take len).reduceOption

/-- `free.rs` `free_ptr_ref` (the `Free` impl for sized `T`): drop the single
pointee in place, then `gen_free` the pointer. -/
def free_ptr_ref (h : Heap α) (p : Nat) : Heap α :=
  gen_free (dropRange h p 0 1) p

/-- `free.rs` `Free for [T]`: drop every element of the fat pointer's range
`[0, len)` in place, then `gen_free` the thin pointer. -/
def freeSlice (h : Heap α) (p len : Nat) : Heap α :=
  gen_free (dropRange h p 0 len) p

/-- `free.rs` `Free for str`: reinterprets the text as a byte slice and
delegates to the `[u8]` implementation. -/
def freeStr (h : Heap Nat) (p len : Nat) : Heap Nat :=
  freeSlice h p len

/-- `MBox<T>` for sized `T`: a thin owning handle. -/
structure MBox (α : Type) where
  ptr : Nat
deriving DecidableEq

/-- `MBox::from_raw`: wraps a pointer, transferring ownership into the box. -/
def MBox.from_raw (p : Nat) : MBox α :=
  ⟨p⟩

/-- `MBox::into_raw`: forgets the box (no destructor, no release will run) and
returns the bare pointer.  Pure: it performs no heap action at all. -/
def MBox.into_raw (b : MBox α) : Nat :=
  b.ptr

/-- `MBox::new`: allocate storage for one value and move the value into it. -/
def MBox.new (size : Nat) (v : α) (h : Heap α) : Except AllocFatal (MBox α × Heap α) :=
  match gen_malloc size 1 h with
  | .error e => .error e
  | .ok (p, h1) => .ok (MBox.from_raw p, writeSlot h1 p 0 v)

/-- `impl Drop for MBox` at sized `T`: `T::free(ptr)`, i.e. `free_ptr_ref`. -/
def MBox.drop (h : Heap α) (b : MBox α) : Heap α :=
  free_ptr_ref h b.ptr

/-- `MBox<[T]>`: a fat owning handle (address plus element count). -/
structure MBoxSlice (α : Type) where
  ptr : Nat
  len : Nat
deriving DecidableEq

/-- `MBox::<[T]>::from_raw_parts`. -/
def MBoxSlice.from_raw_parts (p len : Nat) : MBoxSlice α :=
  ⟨p, len⟩

/-- `impl Drop for MBox` at `[T]`: the `Free for [T]` implementation. -/
def MBoxSlice.drop (h : Heap α) (s : MBoxSlice α) : Heap α :=
  freeSlice h s.ptr s.len

/-- `Default for MBox<[T]>`: `from_raw_parts(gen_malloc(0), 0)`. -/
def MBoxSlice.defaultSlice (size : Nat) (h : Heap α) : Except AllocFatal (MBoxSlice α × Heap α) :=
  match gen_malloc size 0 h with
  | .error e => .error e
  | .ok (p, h1) => .ok (MBoxSlice.from_raw_parts p 0, h1)

/-- `MSliceBuilder`: the growable staging allocation behind `from_slice` and
`FromIterator`. -/
structure MSliceBuilder (α : Type) where
  ptr : Nat
  cap : Nat
  len : Nat
deriving DecidableEq

/-- `MSliceBuilder::with_capacity`: allocate `cap` slots, length 0. -/
def MSliceBuilder.with_capacity (size cap : Nat) (h : Heap α) :
    Except AllocFatal (MSliceBuilder α × Heap α) :=
  match gen_malloc size cap h with
  | .error e => .error e
  | .ok (p, h1) => .ok (⟨p, cap, 0⟩, h1)

/-- `MSliceBuilder::push`: double the capacity through `gen_realloc` when full,
then write the value into slot `len` and increment the length. -/
def MSliceBuilder.push (size : Nat) (b : MSliceBuilder α) (v : α) (h : Heap α) :
    Except AllocFatal (MSliceBuilder α × Heap α) :=
  if b.cap ≤ b.len then
    match gen_realloc size b.ptr (b.cap * 2) h with
    | .error e => .error e
    | .ok (p, h1) => .ok (⟨p, b.cap * 2, b.len + 1⟩, writeSlot h1 p b.len v)
  else
    .ok (⟨b.ptr, b.cap, b.len + 1⟩, writeSlot h b.ptr b.len v)

/-- `MSliceBuilder::as_mboxed_slice`: the fat handle over the initialized
prefix `[0, len)`. -/
def MSliceBuilder.as_mboxed_slice (b : MSliceBuilder α) : MBoxSlice α :=
  ⟨b.ptr, b.len⟩

/-- `MSliceBuilder::into_mboxed_slice`: `as_mboxed_slice` then `forget(self)`
(the builder's destructor will not run). -/
def MSliceBuilder.into_mboxed_slice (b : MSliceBuilder α) : MBoxSlice α :=
  b.as_mboxed_slice

/-- `impl Drop for MSliceBuilder`: materializes `as_mboxed_slice` as a
temporary owning slice, whose own destruction destroys the initialized prefix
and releases the backing storage. -/
def MSliceBuilder.dropBuilder (h : Heap α) (b : MSliceBuilder α) : Heap α :=
  MBoxSlice.drop h b.as_mboxed_slice

/-- Pushing a list of values left to right (the loop bodies of `from_slice`
and `from_iter`). -/
def pushAll (size : Nat) (b : MSliceBuilder α) (l : List α) (h : Heap α) :
    Except AllocFatal (MSliceBuilder α × Heap α) :=
  match l with
  | [] => .ok (b, h)
  | v :: rest =>
    match MSliceBuilder.push size b v h with
    | .error e => .error e
    | .ok (b1, h1) => pushAll size b1 rest h1

/-- `MBox::<[T]>::from_slice`: builder seeded with the source length, each
element cloned and pushed in order, then finalized. -/
def MBoxSlice.from_slice (size : Nat) (l : List α) (h : Heap α) :
    Except AllocFatal (MBoxSlice α × Heap α) :=
  match MSliceBuilder.with_capacity size l.length h with
  | .error e => .error e
  | .ok (b, h1) =>
    match pushAll size b l h1 with
    | .error e => .error e
    | .ok (b2, h2) => .ok (b2.into_mboxed_slice, h2)

/-- `FromIterator for MBox<[T]>`: builder seeded with `max est 1` where `est`
is the iterator's size estimate, each produced element pushed in order. -/
def MBoxSlice.from_iter (size est : Nat) (l : List α) (h : Heap α) :
    Except AllocFatal (MBoxSlice α × Heap α) :=
  match MSliceBuilder.with_capacity size (max est 1) h with
  | .error e => .error e
  | .ok (b, h1) =>
    match pushAll size b l h1 with
    | .error e => .error e
    | .ok (b2, h2) => .ok (b2.into_mboxed_slice, h2)

/-- `MSliceIntoIter`: the consuming iterator state (`[beginIdx, endIdx)` is the
not-yet-yielded range; the source fields are named `begin` and `end`). -/
structure MSliceIntoIter (α : Type) where
  ptr : Nat
  beginIdx : Nat
  endIdx : Nat
deriving DecidableEq

/-- `IntoIterator for MBox<[T]>`: forget the box, iterate `[0, len)`. -/
def MBoxSlice.into_iter (s : MBoxSlice α) : MSliceIntoIter α :=
  ⟨s.ptr, 0, s.len⟩

/-- `MSliceIntoIter::next`: move the front element out by `ptr::read` (no
destructor runs) and advance `beginIdx`. -/
def MSliceIntoIter.next (h : Heap α) (it : MSliceIntoIter α) :
    Option α × MSliceIntoIter α :=
  if it.beginIdx = it.endIdx then
    (none, it)
  else
    (readSlot h it.ptr it.beginIdx, ⟨it.ptr, it.beginIdx + 1, it.endIdx⟩)

/-- `MSliceIntoIter::next_back`: move the back element out by `ptr::read` (no
destructor runs) and retreat `endIdx`. -/
def MSliceIntoIter.next_back (h : Heap α) (it : MSliceIntoIter α) :
    Option α × MSliceIntoIter α :=
  if it.beginIdx = it.endIdx then
    (none, it)
  else
    (readSlot h it.ptr (it.endIdx - 1), ⟨it.ptr, it.beginIdx, it.endIdx - 1⟩)

/-- `impl Drop for MSliceIntoIter`: `drop_in_place` of the not-yet-yielded
range `[beginIdx, endIdx)`, then `gen_free` of the original base pointer. -/
def MSliceIntoIter.dropIter (h : Heap α) (it : MSliceIntoIter α) : Heap α :=
  gen_free (dropRange h it.ptr it.beginIdx (it.endIdx - it.beginIdx)) it.ptr

/-- Yields `n` elements from the front (`n` calls to `next`). -/
def consumeFront (h : Heap α) (it : MSliceIntoIter α) :
    Nat → List (Option α) × MSliceIntoIter α
  | 0 => ([], it)
  | n + 1 =>
    let r := it.next h
    let rest := consumeFront h r.2 n
    (r.1 :: rest.1, rest.2)

/-- Yields `n` elements from the back (`n` calls to `next_back`). -/
def consumeBack (h : Heap α) (it : MSliceIntoIter α) :
    Nat → List (Option α) × MSliceIntoIter α
  | 0 => ([], it)
  | n + 1 =>
    let r := it.next_back h
    let rest := consumeBack h r.2 n
    (r.1 :: rest.1, rest.2)

/-- Whether a byte is a UTF-8 continuation byte (`10xxxxxx`). -/
def isUtf8Cont (b : Nat) : Bool :=
  0x80 ≤ b && b ≤ 0xBF

/-- UTF-8 validity of a byte sequence, following the encoding rules enforced
by `std::str::from_utf8` (shortest forms only, surrogates and values above
U+10FFFF rejected). -/
def validUtf8 : List Nat → Bool
  | [] => true
  | b :: rest =>
    if b ≤ 0x7F then
      validUtf8 rest
    else if b < 0xC2 then
      false
    else if b ≤ 0xDF then
      match rest with
      | c1 :: rest2 => isUtf8Cont c1 && validUtf8 rest2
      | [] => false
    else if b ≤ 0xEF then
      match rest with
      | c1 :: c2 :: rest3 =>
        (if b = 0xE0 then decide (0xA0 ≤ c1 ∧ c1 ≤ 0xBF)
         else if b = 0xED then decide (0x80 ≤ c1 ∧ c1 ≤ 0x9F)
         else isUtf8Cont c1) && isUtf8Cont c2 && validUtf8 rest3
      | _ => false
    else if b ≤ 0xF4 then
      match rest with
      | c1 :: c2 :: c3 :: rest4 =>
        (if b = 0xF0 then decide (0x90 ≤ c1 ∧ c1 ≤ 0xBF)
         else if b = 0xF4 then decide (0x80 ≤ c1 ∧ c1 ≤ 0x8F)
         else isUtf8Cont c1) && isUtf8Cont c2 && isUtf8Cont c3 && validUtf8 rest4
      | _ => false
    else
      false

/-- The opaque `std::str::Utf8Error` as returned by this crate's checked text
constructors: it carries no payload usable to recover the byte allocation. -/
inductive Utf8Error : Type
  | mk
deriving DecidableEq

/-- `MBox<str>`: the owning text handle (address plus byte length). -/
structure MBoxStr where
  ptr : Nat
  len : Nat
deriving DecidableEq

/-- `MBox::<str>::from_raw_utf8_parts_unchecked`: trusts the caller, no
validation, no heap action. -/
def MBoxStr.from_raw_utf8_parts_unchecked (p len : Nat) : MBoxStr :=
  ⟨p, len⟩

/-- `MBox::<str>::from_raw_utf8_parts`: validates the `len` bytes at `p` with
`std::str::from_utf8`; returns the error on invalid UTF-8.  Performs no heap
mutation either way. -/
def MBoxStr.from_raw_utf8_parts (h : Heap Nat) (p len : Nat) :
    Except Utf8Error MBoxStr × Heap Nat :=
  if validUtf8 (readRange h p len) then
    (.ok ⟨p, len⟩, h)
  else
    (.error .mk, h)

/-- `MBox::<str>::into_bytes`: `from_raw(into_raw(self) as *mut [u8])` — a
pure reinterpretation of the same allocation, no copy, no heap action. -/
def MBoxStr.into_bytes (s : MBoxStr) : MBoxSlice Nat :=
  ⟨s.ptr, s.len⟩

/-- `MBox::<str>::from_utf8_unchecked`: pure reinterpretation of the byte box. -/
def MBoxStr.from_utf8_unchecked (bytes : MBoxSlice Nat) : MBoxStr :=
  ⟨bytes.ptr, bytes.len⟩

/-- `MBox::<str>::from_utf8`: reads the pointer and length out of the byte
box, `forget`s the box (its destructor is disarmed), and delegates to
`from_raw_utf8_parts`.  Note that on the error path nothing reconstitutes an
owner for the allocation. -/
def MBoxStr.from_utf8 (h : Heap Nat) (bytes : MBoxSlice Nat) :
    Except Utf8Error MBoxStr × Heap Nat :=
  MBoxStr.from_raw_utf8_parts h bytes.ptr bytes.len

/-- `impl Drop for MBox` at `str`: the `Free for str` implementation. -/
def MBoxStr.drop (h : Heap Nat) (s : MBoxStr) : Heap Nat :=
  freeStr h s.ptr s.len

/-- `Default for MBox<str>`: `from_raw_utf8_parts_unchecked(gen_malloc(0), 0)`. -/
def MBoxStr.defaultStr (h : Heap Nat) : Except AllocFatal (MBoxStr × Heap Nat) :=
  match gen_malloc 1 0 h with
  | .error e => .error e
  | .ok (p, h1) => .ok (MBoxStr.from_raw_utf8_parts_unchecked p 0, h1)

/-- Modelled from the spec §4.1 wording for `reallocate(handle, newCount)`:
zero-size pointee returns the handle unchanged; `newCount == 0` releases and
returns the sentinel; a sentinel handle with positive count delegates to
`allocate`; otherwise the real reallocate primitive is used, with
multiplication overflow (and a null result, via `checkNull`) treated as a
fatal allocation failure. -/
def reallocSpecModel (size p newCount : Nat) (h : Heap α) : Except AllocFatal (Nat × Heap α) :=
  if size = 0 then
    .ok (p, h)
  else if newCount = 0 then
    .ok (dangling, gen_free h p)
  else if p = dangling then
    gen_malloc size newCount h
  else if newCount * size < USIZE then
    checkNull (reallocPrim h p newCount)
  else
    .error .allocError

/-- Creating a builder with `cap` slots and completing the pushes of `l` (the
common shape of `from_slice` and `from_iter` before finalization). -/
def buildWith (size cap : Nat) (l : List α) (h : Heap α) :
    Except AllocFatal (MSliceBuilder α × Heap α) :=
  match MSliceBuilder.with_capacity size cap h with
  | .error e => .error e
  | .ok (b, h1) => pushAll size b l h1

/-- Builder invariant (element size 1), relative to the base heap `h0` and
starting capacity `c`, after the values `vs` have been pushed: the builder
owns the fresh block at `h0.next`, its initialized prefix holds exactly `vs`
in push order followed by uninitialized slack, and the rest of the heap — in
particular the free and destructor transcripts — is untouched. -/
def BuilderInv (h0 : Heap α) (c : Nat) (vs : List α) (b : MSliceBuilder α) (h : Heap α) : Prop :=
  b.ptr = h0.next ∧
  b.len = vs.length ∧
  1 ≤ b.cap ∧
  c ≤ b.cap ∧
  b.cap ≤ max c (2 * vs.length) ∧
  (∃ k, b.cap = vs.length + k ∧
    h.blocks b.ptr = some (vs.map some ++ List.replicate k none)) ∧
  h.next = h0.next + 1 ∧
  h.mallocs = h0.mallocs + 1 ∧
  h.frees = h0.frees ∧
  h.drops = h0.drops ∧
  (∀ a, a ≠ h0.next → h.blocks a = h0.blocks a)

/-! Helper lemmas about `List.reduceOption`. -/

theorem reduceOption_map_some (l : List α) : (l.map some).reduceOption = l := by
  induction l with
  | nil => rfl
  | cons x xs ih => simp [List.reduceOption_cons_of_some, ih]

theorem reduceOption_replicate_none (n : Nat) :
    (List.replicate n (none : Option α)).reduceOption = [] := by
  induction n with
  | zero => rfl
  | succ n ih => simp [List.replicate_succ, List.reduceOption_cons_of_none, ih]

theorem set_head_replicate (l : List β) (m : Nat) (hm : 0 < m) (x d : β) :
    (l ++ List.replicate m d).set l.length x = l ++ x :: List.replicate (m - 1) d := by
  induction l with
  | nil =>
    cases m with
    | zero => omega
    | succ k => simp [List.replicate_succ]
  | cons y ys ih =>
    simpa using ih

theorem with_capacity_inv (h0 : Heap α) (c : Nat) (hc1 : 1 ≤ c) (hc2 : c < USIZE)
    (hnext : 2 ≤ h0.next) :
    ∃ b h1, MSliceBuilder.with_capacity 1 c h0 = .ok (b, h1) ∧ BuilderInv h0 c [] b h1 := by
  have hcond : ¬ ((1 : Nat) = 0 ∨ c = 0) := by omega
  have hmul : checkedMul c 1 = some c := by
    simp only [checkedMul, Nat.mul_one]
    rw [if_pos hc2]
  refine ⟨⟨h0.next, c, 0⟩, (mallocPrim h0 c).2, ?_, ?_⟩
  · simp only [MSliceBuilder.with_capacity, gen_malloc, if_neg hcond, hmul, mallocPrim, checkNull]
  · refine ⟨rfl, rfl, hc1, le_refl c, by simp, ⟨c, by simp, ?_⟩, rfl, rfl, rfl, rfl, ?_⟩
    · simp [mallocPrim]
    · intro a ha
      simp [mallocPrim, ha]

theorem push_inv (h0 : Heap α) (c : Nat) (vs : List α) (b : MSliceBuilder α) (h : Heap α) (v : α)
    (inv : BuilderInv h0 c vs b h) (hnext : 2 ≤ h0.next) (hbound : 2 * vs.length < USIZE) :
    ∃ b1 h1, MSliceBuilder.push 1 b v h = .ok (b1, h1) ∧ BuilderInv h0 c (vs ++ [v]) b1 h1 := by
  obtain ⟨hptr, hlen, hcap1, hcapc, hcapmax, ⟨k, hk, hblk⟩, hnx, hm, hf, hd, hoth⟩ := inv
  have hpd : b.ptr ≠ dangling := by
    rw [hptr]
    simp only [dangling]
    omega
  by_cases hfull : b.cap ≤ b.len
  · -- growth branch: the builder is full, so k = 0 and cap = len
    have hk0 : k = 0 := by omega
    have hcl : b.cap = vs.length := by omega
    subst hk0
    have hs0 : ¬ (1 : Nat) = 0 := by omega
    have h20 : ¬ b.cap * 2 = 0 := by omega
    have hmul : checkedMul (b.cap * 2) 1 = some (b.cap * 2) := by
      simp only [checkedMul, Nat.mul_one]
      rw [if_pos (by omega)]
    have hblk0 : (reallocPrim h b.ptr (b.cap * 2)).2.blocks b.ptr
        = (h.blocks b.ptr).map (fun s => resizeSlots s (b.cap * 2)) := by
      simp [reallocPrim]
    have hblk1 : (reallocPrim h b.ptr (b.cap * 2)).2.blocks b.ptr
        = some (vs.map some ++ List.replicate b.cap none) := by
      rw [hblk0, hblk]
      show some (resizeSlots (List.map some vs ++ List.replicate 0 none) (b.cap * 2)) = _
      simp only [List.replicate_zero, List.append_nil, resizeSlots]
      rw [List.take_of_length_le (by rw [List.length_map]; omega)]
      have hco : b.cap * 2 - (List.map some vs).length = b.cap := by
        rw [List.length_map]
        omega
      rw [hco]
    refine ⟨⟨b.ptr, b.cap * 2, b.len + 1⟩,
      writeSlot (reallocPrim h b.ptr (b.cap * 2)).2 b.ptr b.len v, ?_, ?_⟩
    · simp only [MSliceBuilder.push, if_pos hfull, gen_realloc, if_neg hs0, if_neg h20,
        if_neg hpd, hmul, reallocPrim, checkNull]
    · refine ⟨hptr, ?_, ?_, ?_, ?_, ⟨b.cap - 1, ?_, ?_⟩, hnx, hm, hf, hd, ?_⟩
      · show b.len + 1 = (vs ++ [v]).length
        simp only [List.length_append, List.length_singleton]
        omega
      · show 1 ≤ b.cap * 2
        omega
      · show c ≤ b.cap * 2
        omega
      · show b.cap * 2 ≤ max c (2 * (vs ++ [v]).length)
        simp only [List.length_append, List.length_singleton]
        exact le_trans (by omega) (Nat.le_max_right c (2 * (vs.length + 1)))
      · show b.cap * 2 = (vs ++ [v]).length + (b.cap - 1)
        simp only [List.length_append, List.length_singleton]
        omega
      · show (writeSlot (reallocPrim h b.ptr (b.cap * 2)).2 b.ptr b.len v).blocks b.ptr = _
        simp only [writeSlot, if_pos rfl]
        rw [hblk1]
        simp only [Option.map_some']
        rw [hlen, ← List.length_map vs some, set_head_replicate _ _ (by omega)]
        simp
      · intro a ha
        have ha2 : a ≠ b.ptr := by rw [hptr]; exact ha
        show (writeSlot (reallocPrim h b.ptr (b.cap * 2)).2 b.ptr b.len v).blocks a = _
        simp only [writeSlot, reallocPrim, if_neg ha2]
        exact hoth a ha
  · -- room left: k ≥ 1, plain write into slot len
    have hk1 : 1 ≤ k := by omega
    refine ⟨⟨b.ptr, b.cap, b.len + 1⟩, writeSlot h b.ptr b.len v, ?_, ?_⟩
    · simp only [MSliceBuilder.push, if_neg hfull]
    · refine ⟨hptr, ?_, ?_, ?_, ?_, ⟨k - 1, ?_, ?_⟩, hnx, hm, hf, hd, ?_⟩
      · show b.len + 1 = (vs ++ [v]).length
        simp only [List.length_append, List.length_singleton]
        omega
      · show 1 ≤ b.cap
        omega
      · show c ≤ b.cap
        omega
      · show b.cap ≤ max c (2 * (vs ++ [v]).length)
        simp only [List.length_append, List.length_singleton]
        refine le_trans hcapmax ?_
        exact max_le_max (le_refl c) (by omega)
      · show b.cap = (vs ++ [v]).length + (k - 1)
        simp only [List.length_append, List.length_singleton]
        omega
      · show (writeSlot h b.ptr b.len v).blocks b.ptr = _
        simp only [writeSlot, if_pos rfl]
        rw [hblk]
        simp only [Option.map_some']
        rw [hlen, ← List.length_map vs some, set_head_replicate _ _ (by omega)]
        simp
      · intro a ha
        have ha2 : a ≠ b.ptr := by rw [hptr]; exact ha
        show (writeSlot h b.ptr b.len v).blocks a = _
        simp only [writeSlot, if_neg ha2]
        exact hoth a ha

theorem pushAll_inv (h0 : Heap α) (c : Nat) (l : List α) :
    ∀ (vs : List α) (b : MSliceBuilder α) (h : Heap α),
    BuilderInv h0 c vs b h → 2 ≤ h0.next → 2 * (vs.length + l.length) < USIZE →
    ∃ b1 h1, pushAll 1 b l h = .ok (b1, h1) ∧ BuilderInv h0 c (vs ++ l) b1 h1 := by
  induction l with
  | nil =>
    intro vs b h inv _ _
    exact ⟨b, h, rfl, by simpa using inv⟩
  | cons v rest ih =>
    intro vs b h inv hnext hbound
    obtain ⟨b1, h1, hp, inv1⟩ := push_inv h0 c vs b h v inv hnext
      (by have hb := hbound; simp only [List.length_cons] at hb; omega)
    obtain ⟨b2, h2, hp2, inv2⟩ := ih (vs ++ [v]) b1 h1 inv1 hnext
      (by have hb := hbound
          simp only [List.length_cons] at hb
          simp only [List.length_append, List.length_singleton]
          omega)
    refine ⟨b2, h2, ?_, ?_⟩
    · simp only [pushAll, hp, hp2]
    · simpa [List.append_assoc] using inv2

theorem slots_getD_init (vs : List α) (k i : Nat) (hi : i < vs.length) :
    (vs.map some ++ List.replicate k none).getD i none = some vs[i] := by
  rw [List.getD_eq_getElem?_getD, List.getElem?_append_left (by simpa using hi),
    List.getElem?_map, List.getElem?_eq_getElem hi]
  rfl

theorem readSlot_init (h : Heap α) (p : Nat) (vs : List α) (k i : Nat)
    (hblk : h.blocks p = some (vs.map some ++ List.replicate k none)) (hi : i < vs.length) :
    readSlot h p i = some vs[i] := by
  rw [readSlot, Heap.slots, hblk, Option.getD_some]
  exact slots_getD_init vs k i hi

theorem consumeFront_spec (h : Heap α) (p : Nat) (vs : List α) (k : Nat)
    (hblk : h.blocks p = some (vs.map some ++ List.replicate k none)) :
    ∀ (n i e : Nat), i + n ≤ e → e ≤ vs.length →
      consumeFront h ⟨p, i, e⟩ n = (((vs.drop i).take n).map some, ⟨p, i + n, e⟩) := by
  intro n
  induction n with
  | zero =>
    intro i e _ _
    simp [consumeFront]
  | succ m ih =>
    intro i e hie hev
    have hine : i ≠ e := by omega
    have hiv : i < vs.length := by omega
    have hstep : MSliceIntoIter.next h ⟨p, i, e⟩ = (some vs[i], ⟨p, i + 1, e⟩) := by
      simp only [MSliceIntoIter.next, if_neg hine]
      rw [readSlot_init h p vs k i hblk hiv]
    have harith : i + 1 + m = i + (m + 1) := by omega
    rw [consumeFront, hstep]
    simp only []
    rw [ih (i + 1) e (by omega) hev, harith, List.drop_eq_getElem_cons hiv,
      List.take_succ_cons, List.map_cons]

theorem consumeBack_spec (h : Heap α) (p : Nat) (vs : List α) (k : Nat)
    (hblk : h.blocks p = some (vs.map some ++ List.replicate k none)) :
    ∀ (n i e : Nat), i + n ≤ e → e ≤ vs.length →
      consumeBack h ⟨p, i, e⟩ n
        = ((((vs.drop (e - n)).take n).map some).reverse, ⟨p, i, e - n⟩) := by
  intro n
  induction n with
  | zero =>
    intro i e _ _
    simp [consumeBack]
  | succ m ih =>
    intro i e hie hev
    have hine : i ≠ e := by omega
    have hev1 : e - 1 < vs.length := by omega
    have hstep : MSliceIntoIter.next_back h ⟨p, i, e⟩ = (some vs[e - 1], ⟨p, i, e - 1⟩) := by
      simp only [MSliceIntoIter.next_back, if_neg hine]
      rw [readSlot_init h p vs k (e - 1) hblk hev1]
    have harith : e - 1 - m = e - (m + 1) := by omega
    rw [consumeBack, hstep]
    simp only []
    rw [ih i (e - 1) (by omega) (by omega), harith]
    have hseg : (vs.drop (e - (m + 1))).take (m + 1)
        = (vs.drop (e - (m + 1))).take m ++ [vs[e - 1]] := by
      rw [List.take_succ, List.getElem?_drop]
      have : e - (m + 1) + m = e - 1 := by omega
      rw [this, List.getElem?_eq_getElem hev1]
      rfl
    rw [hseg]
    simp

theorem dropRange_init (h : Heap α) (p : Nat) (vs : List α) (k i m : Nat)
    (hblk : h.blocks p = some (vs.map some ++ List.replicate k none)) (him : i + m ≤ vs.length) :
    (dropRange h p i m).drops = h.drops ++ (vs.drop i).take m := by
  show h.drops ++ (((h.slots p).drop i).take m).reduceOption = _
  rw [Heap.slots, hblk, Option.getD_some,
    List.drop_append_of_le_length (by simpa using (by omega : i ≤ vs.length)),
    List.take_append_of_le_length (by simp; omega),
    ← List.map_drop, ← List.map_take, reduceOption_map_some]

/-- Claim C4: `gen_realloc` satisfies exactly the spec's case analysis — the
handle is returned unchanged for a zero-size pointee; a zero new count
releases the handle and returns the sentinel; a sentinel handle delegates to
`gen_malloc`; otherwise the real reallocate primitive is consulted, with
multiplication overflow of `newCount × size` a fatal failure, and a null
primitive result likewise fatal (`checkNull` maps it to `.error`, never to a
returned handle). -/
theorem gen_realloc_case_analysis :
    (∀ (α : Type) (size p newCount : Nat) (h : Heap α),
        gen_realloc size p newCount h = reallocSpecModel size p newCount h) ∧
    (∀ (α : Type) (h : Heap α), checkNull ((none : Option Nat), h) = .error .allocError) := by
  constructor
  · intro α size p n h
    simp only [gen_realloc, reallocSpecModel, checkedMul]
    split_ifs <;> rfl
  · intro α h
    rfl

/-- Claim C5: zero-size/zero-count allocation returns the sentinel without
touching the real allocator; `gen_free` is a no-op exactly on the sentinel and
otherwise hands the address to the real free; consequently constructing (and
destroying) a box of a zero-sized value, an empty slice, or an empty string
never calls the real allocator's malloc or free. -/
theorem zero_size_sentinel_behavior :
    (∀ (α : Type) (count : Nat) (h : Heap α), gen_malloc 0 count h = .ok (dangling, h)) ∧
    (∀ (α : Type) (size : Nat) (h : Heap α), gen_malloc size 0 h = .ok (dangling, h)) ∧
    (∀ (α : Type) (h : Heap α) (p : Nat), gen_free h p = h ↔ p = dangling) ∧
    (∀ (α : Type) (h : Heap α) (p : Nat), p ≠ dangling → gen_free h p = freePrim h p) ∧
    (∀ (α : Type) (v : α) (h : Heap α),
      ∃ b h1, MBox.new 0 v h = .ok (b, h1) ∧ b.ptr = dangling ∧
        h1.mallocs = h.mallocs ∧ h1.frees = h.frees ∧
        (MBox.drop h1 b).mallocs = h.mallocs ∧ (MBox.drop h1 b).frees = h.frees) ∧
    (∀ (α : Type) (size : Nat) (h : Heap α),
      MBoxSlice.defaultSlice size h = .ok (⟨dangling, 0⟩, h) ∧
      (MBoxSlice.drop h ⟨dangling, 0⟩).mallocs = h.mallocs ∧
      (MBoxSlice.drop h ⟨dangling, 0⟩).frees = h.frees) ∧
    (∀ h : Heap Nat,
      MBoxStr.defaultStr h = .ok (⟨dangling, 0⟩, h) ∧
      (MBoxStr.drop h ⟨dangling, 0⟩).mallocs = h.mallocs ∧
      (MBoxStr.drop h ⟨dangling, 0⟩).frees = h.frees) := by
  refine ⟨?_, ?_, ?_, ?_, ?_, ?_, ?_⟩
  · intro α count h
    simp [gen_malloc]
  · intro α size h
    simp [gen_malloc]
  · intro α h p
    constructor
    · intro he
      by_contra hp
      rw [gen_free, if_neg hp] at he
      have := congrArg Heap.frees he
      simp only [freePrim] at this
      have := congrArg List.length this
      simp at this
    · intro hp
      rw [gen_free, if_pos hp]
  · intro α h p hp
    rw [gen_free, if_neg hp]
  · intro α v h
    refine ⟨⟨dangling⟩, writeSlot h dangling 0 v, ?_, rfl, rfl, rfl, ?_, ?_⟩
    · simp [MBox.new, gen_malloc, MBox.from_raw]
    · simp [MBox.drop, free_ptr_ref, gen_free, dropRange, writeSlot]
    · simp [MBox.drop, free_ptr_ref, gen_free, dropRange, writeSlot]
  · intro α size h
    refine ⟨?_, ?_, ?_⟩
    · simp [MBoxSlice.defaultSlice, gen_malloc, MBoxSlice.from_raw_parts]
    · simp [MBoxSlice.drop, freeSlice, gen_free, dropRange]
    · simp [MBoxSlice.drop, freeSlice, gen_free, dropRange]
  · intro h
    refine ⟨?_, ?_, ?_⟩
    · simp [MBoxStr.defaultStr, gen_malloc, MBoxStr.from_raw_utf8_parts_unchecked]
    · simp [MBoxStr.drop, freeStr, freeSlice, gen_free, dropRange]
    · simp [MBoxStr.drop, freeStr, freeSlice, gen_free, dropRange]

/-- Witness for C5: the non-sentinel release clause evaluated at address 2 on
the empty heap, plus a concrete zero-size allocation. -/
theorem zero_size_sentinel_behavior_witness :
    gen_free (Heap.empty Nat) 2 = freePrim (Heap.empty Nat) 2 ∧
    gen_malloc 0 5 (Heap.empty Nat) = .ok (dangling, Heap.empty Nat) :=
  ⟨zero_size_sentinel_behavior.2.2.2.1 Nat (Heap.empty Nat) 2 (by decide),
   zero_size_sentinel_behavior.1 Nat 5 (Heap.empty Nat)⟩

/-- Claim C2: a freshly constructed single-value box, when dropped, runs the
pointee's destructor exactly once and releases its allocation exactly once;
`into_raw` is pure — it returns the bare pointer and performs no destructor
call and no release — and re-wrapping the raw pointer with `from_raw` restores
the original destruction behavior. -/
theorem single_free_exactly_once (α : Type) (size : Nat) (v : α) (h : Heap α)
    (hsz : 0 < size) (hlt : size < USIZE) (hnext : 2 ≤ h.next) :
    ∃ b h1, MBox.new size v h = .ok (b, h1) ∧
      b.ptr = h.next ∧
      h1.drops = h.drops ∧ h1.frees = h.frees ∧
      (MBox.drop h1 b).drops = h.drops ++ [v] ∧
      (MBox.drop h1 b).frees = h.frees ++ [h.next] ∧
      (MBox.drop h1 b).blocks h.next = none ∧
      MBox.into_raw b = b.ptr ∧
      MBox.drop h1 (MBox.from_raw (MBox.into_raw b)) = MBox.drop h1 b := by
  have hne : h.next ≠ dangling := by
    simp only [dangling]
    omega
  have hmul : checkedMul 1 size = some size := by
    simp [checkedMul, hlt]
  have hcond : ¬ (size = 0 ∨ 1 = 0) := by omega
  refine ⟨⟨h.next⟩, writeSlot (mallocPrim h 1).2 h.next 0 v, ?_, rfl, rfl, rfl, ?_, ?_, ?_, rfl, rfl⟩
  · simp only [MBox.new, gen_malloc, if_neg hcond, hmul, mallocPrim, checkNull, MBox.from_raw]
  · simp [MBox.drop, free_ptr_ref, gen_free, hne, freePrim, dropRange, writeSlot,
      mallocPrim, Heap.slots, List.replicate, List.reduceOption_cons_of_some]
  · simp [MBox.drop, free_ptr_ref, gen_free, hne, freePrim, dropRange, writeSlot,
      mallocPrim, Heap.slots]
  · simp [MBox.drop, free_ptr_ref, gen_free, hne, freePrim, dropRange, writeSlot,
      mallocPrim, Heap.slots]

/-- Claim C3: a builder created with capacity `c ≥ 1` into which exactly the
values `vs` were pushed (k = vs.length completed pushes) before being
abandoned destroys, on its own destruction, exactly those k initialized
elements in push order, releases the backing allocation exactly once, and the
uninitialized slots `[length, capacity)` contribute no destruction (the drop
transcript gains exactly `vs`). -/
theorem builder_abort_safety (α : Type) (h0 : Heap α) (c : Nat) (vs : List α)
    (hc1 : 1 ≤ c) (hc2 : c < USIZE) (hvs : 2 * vs.length < USIZE) (hnext : 2 ≤ h0.next) :
    ∃ b h1, buildWith 1 c vs h0 = .ok (b, h1) ∧
      b.len = vs.length ∧
      (MSliceBuilder.dropBuilder h1 b).drops = h0.drops ++ vs ∧
      (MSliceBuilder.dropBuilder h1 b).frees = h0.frees ++ [h0.next] ∧
      (MSliceBuilder.dropBuilder h1 b).blocks h0.next = none ∧
      (MSliceBuilder.dropBuilder h1 b).mallocs = h0.mallocs + 1 := by
  obtain ⟨b0, hh, hwc, inv0⟩ := with_capacity_inv h0 c hc1 hc2 hnext
  obtain ⟨b, h1, hpush, inv⟩ := pushAll_inv h0 c vs [] b0 hh inv0 hnext (by simpa using hvs)
  rw [List.nil_append] at inv
  obtain ⟨hptr, hblen, hcap1, hcapc, hcapmax, ⟨k, hk, hblk⟩, hnx, hm, hf, hd, hoth⟩ := inv
  have hpd : b.ptr ≠ dangling := by
    rw [hptr]
    simp only [dangling]
    omega
  have hslots : h1.slots b.ptr = vs.map some ++ List.replicate k none := by
    rw [Heap.slots, hblk]
    rfl
  have htake : (((h1.slots b.ptr).drop 0).take b.len).reduceOption = vs := by
    rw [hslots, hblen, List.drop_zero, ← List.length_map vs some, List.take_left,
      reduceOption_map_some]
  refine ⟨b, h1, ?_, hblen, ?_, ?_, ?_, ?_⟩
  · simp only [buildWith, hwc]
    exact hpush
  · simp only [MSliceBuilder.dropBuilder, MSliceBuilder.as_mboxed_slice, MBoxSlice.drop,
      freeSlice, gen_free, if_neg hpd, freePrim, dropRange]
    rw [htake, hd]
  · simp only [MSliceBuilder.dropBuilder, MSliceBuilder.as_mboxed_slice, MBoxSlice.drop,
      freeSlice, gen_free, if_neg hpd, freePrim, dropRange]
    rw [hf, hptr]
  · simp only [MSliceBuilder.dropBuilder, MSliceBuilder.as_mboxed_slice, MBoxSlice.drop,
      freeSlice, gen_free, if_neg hpd, freePrim, dropRange]
    rw [hptr]
    simp
  · simp only [MSliceBuilder.dropBuilder, MSliceBuilder.as_mboxed_slice, MBoxSlice.drop,
      freeSlice, gen_free, if_neg hpd, freePrim, dropRange]
    exact hm

/-- Witness for C3: three pushes into a capacity-1 builder on the empty heap,
then abandonment. -/
theorem builder_abort_safety_witness :
    ∃ b h1, buildWith 1 1 [5, 6, 7] (Heap.empty Nat) = .ok (b, h1) ∧
      b.len = [5, 6, 7].length ∧
      (MSliceBuilder.dropBuilder h1 b).drops = (Heap.empty Nat).drops ++ [5, 6, 7] ∧
      (MSliceBuilder.dropBuilder h1 b).frees = (Heap.empty Nat).frees ++ [(Heap.empty Nat).next] ∧
      (MSliceBuilder.dropBuilder h1 b).blocks (Heap.empty Nat).next = none ∧
      (MSliceBuilder.dropBuilder h1 b).mallocs = (Heap.empty Nat).mallocs + 1 :=
  builder_abort_safety Nat (Heap.empty Nat) 1 [5, 6, 7]
    (by decide) (by decide) (by decide) (by decide)

/-- Claim C6: pushing the elements `vs` (n = vs.length of them) into a builder
with starting capacity `1 ≤ c < n` and finalizing with `into_mboxed_slice`
yields a slice box of length exactly n whose contents read back equal to `vs`
in original push order. -/
theorem builder_growth_correctness (α : Type) (h0 : Heap α) (c : Nat) (vs : List α)
    (hc1 : 1 ≤ c) (hcn : c < vs.length) (hvs : 2 * vs.length < USIZE) (hnext : 2 ≤ h0.next) :
    ∃ b h1, buildWith 1 c vs h0 = .ok (b, h1) ∧
      b.into_mboxed_slice.len = vs.length ∧
      readRange h1 b.into_mboxed_slice.ptr b.into_mboxed_slice.len = vs := by
  have hc2 : c < USIZE := by omega
  obtain ⟨b0, hh, hwc, inv0⟩ := with_capacity_inv h0 c hc1 hc2 hnext
  obtain ⟨b, h1, hpush, inv⟩ := pushAll_inv h0 c vs [] b0 hh inv0 hnext (by simpa using hvs)
  rw [List.nil_append] at inv
  obtain ⟨hptr, hblen, hcap1, hcapc, hcapmax, ⟨k, hk, hblk⟩, hnx, hm, hf, hd, hoth⟩ := inv
  have hslots : h1.slots b.ptr = vs.map some ++ List.replicate k none := by
    rw [Heap.slots, hblk]
    rfl
  refine ⟨b, h1, ?_, hblen, ?_⟩
  · simp only [buildWith, hwc]
    exact hpush
  · show readRange h1 b.ptr b.len = vs
    rw [readRange, hslots, hblen, ← List.length_map vs some, List.take_left,
      reduceOption_map_some]

/-- Witness for C6: three pushes into a capacity-1 builder on the empty heap,
then finalization. -/
theorem builder_growth_correctness_witness :
    ∃ b h1, buildWith 1 1 [4, 5, 6] (Heap.empty Nat) = .ok (b, h1) ∧
      b.into_mboxed_slice.len = [4, 5, 6].length ∧
      readRange h1 b.into_mboxed_slice.ptr b.into_mboxed_slice.len = [4, 5, 6] :=
  builder_growth_correctness Nat (Heap.empty Nat) 1 [4, 5, 6]
    (by decide) (by decide) (by decide) (by decide)

/-- Claim C7: pushing the five bytes of "hello" one at a time into a builder
created with capacity 1 performs exactly 3 real reallocations with requested
capacities 2, 4, 8 (capacity sequence 1→2→4→8), and finalizes to a 5-byte
slice holding 68 65 6c 6c 6f, which the checked text constructor accepts;
those bytes are exactly the UTF-8 code units of the text "hello". -/
theorem hello_scenario :
    ∃ b h1, buildWith 1 1 [0x68, 0x65, 0x6c, 0x6c, 0x6f] (Heap.empty Nat) = .ok (b, h1) ∧
      h1.reallocLog = [2, 4, 8] ∧
      h1.reallocLog.length = 3 ∧
      h1.mallocs = 1 ∧
      b.cap = 8 ∧
      b.into_mboxed_slice.len = 5 ∧
      readRange h1 b.into_mboxed_slice.ptr 5 = [0x68, 0x65, 0x6c, 0x6c, 0x6f] ∧
      (MBoxStr.from_utf8 h1 b.into_mboxed_slice).1 =
        .ok (MBoxStr.mk b.into_mboxed_slice.ptr 5) ∧
      (MBoxStr.from_utf8 h1 b.into_mboxed_slice).2 = h1 ∧
      List.map Char.toNat (String.data "hello") = [0x68, 0x65, 0x6c, 0x6c, 0x6f] := by
  refine ⟨_, _, rfl, ?_, ?_, ?_, ?_, ?_, ?_, ?_, ?_, ?_⟩ <;> rfl

/-- Witness for C2 at a concrete input: one `u64`-sized value on the empty heap. -/
theorem single_free_exactly_once_witness :
    ∃ b h1, MBox.new 1 (7 : Nat) (Heap.empty Nat) = .ok (b, h1) ∧
      b.ptr = (Heap.empty Nat).next ∧
      h1.drops = (Heap.empty Nat).drops ∧ h1.frees = (Heap.empty Nat).frees ∧
      (MBox.drop h1 b).drops = (Heap.empty Nat).drops ++ [7] ∧
      (MBox.drop h1 b).frees = (Heap.empty Nat).frees ++ [(Heap.empty Nat).next] ∧
      (MBox.drop h1 b).blocks (Heap.empty Nat).next = none ∧
      MBox.into_raw b = b.ptr ∧
      MBox.drop h1 (MBox.from_raw (MBox.into_raw b)) = MBox.drop h1 b :=
  single_free_exactly_once Nat 1 7 (Heap.empty Nat) (by decide) (by decide) (by decide)

/-- Claim C8: consuming a slice box's iterator `i` times from the front and
`j` times from the back yields the owned elements in index order (front) and
reverse index order (back) without any destructor invocation, and abandoning
(dropping) the iterator afterwards destroys exactly the not-yet-yielded
elements `[i, n-j)` and releases the backing allocation exactly once, at the
sequence's original starting address. -/
theorem iter_partial_consumption (α : Type) (h : Heap α) (s : MBoxSlice α) (vs : List α)
    (k i j : Nat)
    (hblk : h.blocks s.ptr = some (vs.map some ++ List.replicate k none))
    (hlen : s.len = vs.length) (hij : i + j ≤ vs.length) (hpd : s.ptr ≠ dangling) :
    ∃ it1 it2,
      consumeFront h s.into_iter i = ((vs.take i).map some, it1) ∧
      consumeBack h it1 j = ((((vs.drop (vs.length - j)).take j).map some).reverse, it2) ∧
      it2.beginIdx = i ∧ it2.endIdx = vs.length - j ∧ it2.ptr = s.ptr ∧
      (MSliceIntoIter.dropIter h it2).drops
        = h.drops ++ ((vs.drop i).take (vs.length - j - i)) ∧
      (MSliceIntoIter.dropIter h it2).frees = h.frees ++ [s.ptr] := by
  have hfront := consumeFront_spec h s.ptr vs k hblk i 0 s.len (by omega) (by omega)
  have hback := consumeBack_spec h s.ptr vs k hblk j i vs.length (by omega) (by omega)
  refine ⟨⟨s.ptr, i, vs.length⟩, ⟨s.ptr, i, vs.length - j⟩, ?_, ?_, rfl, rfl, rfl, ?_, ?_⟩
  · show consumeFront h ⟨s.ptr, 0, s.len⟩ i = _
    rw [hlen] at hfront ⊢
    rw [hfront]
    simp
  · exact hback
  · show (gen_free (dropRange h s.ptr i (vs.length - j - i)) s.ptr).drops = _
    rw [gen_free, if_neg hpd]
    show (dropRange h s.ptr i (vs.length - j - i)).drops = _
    exact dropRange_init h s.ptr vs k i (vs.length - j - i) hblk (by omega)
  · show (gen_free (dropRange h s.ptr i (vs.length - j - i)) s.ptr).frees = _
    rw [gen_free, if_neg hpd]
    rfl

/-- Witness for C8: a 3-element slice, one yield from each end, then abandonment. -/
theorem iter_partial_consumption_witness :
    ∃ it1 it2,
      consumeFront (Heap.mk (fun a => if a = 2 then some [some 10, some 11, some 12] else none)
          3 1 [] [] []) (MBoxSlice.into_iter ⟨2, 3⟩) 1 = (([10, 11, 12].take 1).map some, it1) ∧
      consumeBack (Heap.mk (fun a => if a = 2 then some [some 10, some 11, some 12] else none)
          3 1 [] [] []) it1 1
        = (((([10, 11, 12].drop ([10, 11, 12].length - 1)).take 1).map some).reverse, it2) ∧
      it2.beginIdx = 1 ∧ it2.endIdx = [10, 11, 12].length - 1 ∧
      it2.ptr = (MBoxSlice.mk 2 3 : MBoxSlice Nat).ptr ∧
      (MSliceIntoIter.dropIter (Heap.mk
          (fun a => if a = 2 then some [some 10, some 11, some 12] else none) 3 1 [] [] []) it2).drops
        = [] ++ (([10, 11, 12].drop 1).take ([10, 11, 12].length - 1 - 1)) ∧
      (MSliceIntoIter.dropIter (Heap.mk
          (fun a => if a = 2 then some [some 10, some 11, some 12] else none) 3 1 [] [] []) it2).frees
        = [] ++ [(MBoxSlice.mk 2 3 : MBoxSlice Nat).ptr] :=
  iter_partial_consumption Nat
    (Heap.mk (fun a => if a = 2 then some [some 10, some 11, some 12] else none) 3 1 [] [] [])
    ⟨2, 3⟩ [10, 11, 12] 0 1 1 (by decide) (by decide) (by decide) (by decide)

/-- Claim C9: for a text box whose backing bytes form the valid UTF-8 content
`bs`, `into_bytes` reinterprets the very same allocation as a byte box (same
address, same length, no heap action), and `from_utf8` of that byte box
succeeds, returning a text box equal to the original with the heap completely
untouched — the round trip copies nothing and reproduces the content exactly. -/
theorem str_bytes_roundtrip (h : Heap Nat) (s : MBoxStr) (bs : List Nat)
    (hread : readRange h s.ptr s.len = bs) (hvalid : validUtf8 bs = true) :
    MBoxStr.into_bytes s = MBoxSlice.mk s.ptr s.len ∧
    MBoxStr.from_utf8 h (MBoxStr.into_bytes s) = (.ok s, h) ∧
    readRange h (MBoxStr.into_bytes s).ptr (MBoxStr.into_bytes s).len = bs := by
  refine ⟨rfl, ?_, hread⟩
  show MBoxStr.from_raw_utf8_parts h s.ptr s.len = _
  rw [MBoxStr.from_raw_utf8_parts, hread, if_pos hvalid]

/-- Witness for C9: the two-byte text "hi" in a concrete heap. -/
theorem str_bytes_roundtrip_witness :
    MBoxStr.into_bytes ⟨2, 2⟩ = MBoxSlice.mk 2 2 ∧
    MBoxStr.from_utf8
        (Heap.mk (fun a => if a = 2 then some [some 104, some 105] else none) 3 1 [] [] [])
        (MBoxStr.into_bytes ⟨2, 2⟩)
      = (.ok ⟨2, 2⟩,
         Heap.mk (fun a => if a = 2 then some [some 104, some 105] else none) 3 1 [] [] []) ∧
    readRange (Heap.mk (fun a => if a = 2 then some [some 104, some 105] else none) 3 1 [] [] [])
        (MBoxStr.into_bytes ⟨2, 2⟩).ptr (MBoxStr.into_bytes ⟨2, 2⟩).len = [104, 105] :=
  str_bytes_roundtrip
    (Heap.mk (fun a => if a = 2 then some [some 104, some 105] else none) 3 1 [] [] [])
    ⟨2, 2⟩ [104, 105] (by decide) (by decide)

/-- Counterexample to claim C1 at the concrete input of `test_non_utf8`: the
bytes 88 88 88 88 are cloned into a byte box, `from_utf8` is applied, and the
call returns the bare validation error while performing no heap action at
all — the backing allocation stays live, is never released, no destructor
runs, and no byte box is handed back (the error value has no payload), so the
original bytes are NOT left owned by the caller: the allocation is leaked,
contradicting the claim's "no partial consumption and no leak". -/
theorem from_utf8_invalid_counterexample :
    ∃ s h1, MBoxSlice.from_slice 1 [0x88, 0x88, 0x88, 0x88] (Heap.empty Nat) = .ok (s, h1) ∧
      (MBoxStr.from_utf8 h1 s).1 = .error .mk ∧
      (MBoxStr.from_utf8 h1 s).2 = h1 ∧
      h1.blocks s.ptr = some [some 0x88, some 0x88, some 0x88, some 0x88] ∧
      h1.frees = [] ∧
      h1.drops = [] ∧
      ¬ ((MBoxStr.from_utf8 h1 s).2.frees ≠ h1.frees ∨
          ∃ r, (MBoxStr.from_utf8 h1 s).1 = .ok r) := by
  refine ⟨_, _, rfl, rfl, rfl, rfl, rfl, rfl, ?_⟩
  rintro (hfrees | ⟨r, hr⟩)
  · exact hfrees rfl
  · have h2 : (Except.ok r : Except Utf8Error MBoxStr) = .error .mk :=
      hr.symm.trans rfl
    exact Except.noConfusion h2

/-- Claim C1 (amended): for every byte box whose contents are not valid UTF-8,
the checked text constructor returns the UTF-8 validation error, but the byte
box has been consumed (`forget`) and its backing allocation is neither
released nor handed back to the caller — the heap is returned completely
untouched and the error carries no handle, so the allocation is leaked. -/
theorem from_utf8_invalid_error_leak (h : Heap Nat) (bytes : MBoxSlice Nat)
    (hinvalid : validUtf8 (readRange h bytes.ptr bytes.len) = false) :
    MBoxStr.from_utf8 h bytes = (.error .mk, h) := by
  show MBoxStr.from_raw_utf8_parts h bytes.ptr bytes.len = _
  rw [MBoxStr.from_raw_utf8_parts, if_neg (by rw [hinvalid]; simp)]

/-- Witness for the amended C1: a single invalid byte in a concrete heap. -/
theorem from_utf8_invalid_error_leak_witness :
    MBoxStr.from_utf8 (Heap.mk (fun a => if a = 2 then some [some 0x88] else none) 3 1 [] [] [])
        (MBoxSlice.mk 2 1)
      = (.error .mk, Heap.mk (fun a => if a = 2 then some [some 0x88] else none) 3 1 [] [] []) :=
  from_utf8_invalid_error_leak
    (Heap.mk (fun a => if a = 2 then some [some 0x88] else none) 3 1 [] [] [])
    (MBoxSlice.mk 2 1) (by decide)

/-- Claim C10: the public construction paths keep the builder capacity
positive.  (1) An empty push list performs no push, so `from_slice` of an
empty source never pushes; (2) `with_capacity` hands back exactly the
requested capacity, and the `from_iter` seed `max est 1` is at least 1;
(3) from a good state (capacity ≥ 1, non-sentinel pointer) a push succeeds,
doubles the capacity strictly when full, never requests a reallocation to
zero slots, and the written-to pointer is never the sentinel; (4)/(5) every
intermediate builder state reachable in the `from_iter` and (nonempty)
`from_slice` paths has capacity ≥ 1 and a non-sentinel pointer; and (6) a
capacity-0 builder, were it ever pushed into, would double 0 to 0, free its
handle through `gen_realloc`, and be left holding the sentinel — the state
the public seeds make unreachable. -/
theorem builder_capacity_safety :
    (∀ (α : Type) (size : Nat) (b : MSliceBuilder α) (h : Heap α),
        pushAll size b [] h = .ok (b, h)) ∧
    (∀ (α : Type) (size cap : Nat) (h : Heap α) (b : MSliceBuilder α) (h1 : Heap α),
        MSliceBuilder.with_capacity size cap h = .ok (b, h1) → b.cap = cap) ∧
    (∀ est : Nat, 1 ≤ max est 1) ∧
    (∀ (α : Type) (size : Nat) (b : MSliceBuilder α) (v : α) (h : Heap α),
        1 ≤ size → 1 ≤ b.cap → b.ptr ≠ dangling → b.cap * 2 * size < USIZE →
        ∃ b1 h1, MSliceBuilder.push size b v h = .ok (b1, h1) ∧
          1 ≤ b1.cap ∧ b1.ptr = b.ptr ∧ b.cap * 2 ≠ 0 ∧
          (b.cap ≤ b.len → b1.cap = b.cap * 2 ∧ b.cap < b1.cap) ∧
          (¬ b.cap ≤ b.len → b1.cap = b.cap)) ∧
    (∀ (α : Type) (est : Nat) (l : List α) (h0 : Heap α),
        2 ≤ h0.next → max est 1 < USIZE → 2 * l.length < USIZE →
        ∀ i, ∃ b1 h1, buildWith 1 (max est 1) (l.take i) h0 = .ok (b1, h1) ∧
          1 ≤ b1.cap ∧ b1.ptr ≠ dangling) ∧
    (∀ (α : Type) (l : List α) (h0 : Heap α),
        l ≠ [] → 2 ≤ h0.next → 2 * l.length < USIZE →
        ∀ i, ∃ b1 h1, buildWith 1 l.length (l.take i) h0 = .ok (b1, h1) ∧
          1 ≤ b1.cap ∧ b1.ptr ≠ dangling) ∧
    (∀ (α : Type) (v : α) (h : Heap α) (p : Nat), p ≠ dangling →
        ∃ h1, MSliceBuilder.push 1 ⟨p, 0, 0⟩ v h = .ok (⟨dangling, 0, 1⟩, h1) ∧
          h1.frees = h.frees ++ [p]) := by
  have goodPath : ∀ (α : Type) (c : Nat) (l : List α) (h0 : Heap α),
      1 ≤ c → c < USIZE → 2 ≤ h0.next → 2 * l.length < USIZE →
      ∀ i, ∃ b1 h1, buildWith 1 c (l.take i) h0 = .ok (b1, h1) ∧
        1 ≤ b1.cap ∧ b1.ptr ≠ dangling := by
    intro α c l h0 hc1 hc2 hnext hl i
    obtain ⟨b0, hh, hwc, inv0⟩ := with_capacity_inv h0 c hc1 hc2 hnext
    obtain ⟨b1, h1, hpush, inv⟩ := pushAll_inv h0 c (l.take i) [] b0 hh inv0 hnext
      (by simp only [List.length_nil, Nat.zero_add, List.length_take]; omega)
    obtain ⟨hptr, -, hcap1, -, -, -, -, -, -, -, -⟩ := inv
    refine ⟨b1, h1, ?_, hcap1, ?_⟩
    · simp only [buildWith, hwc]
      exact hpush
    · rw [hptr]
      simp only [dangling]
      omega
  refine ⟨?_, ?_, ?_, ?_, ?_, ?_, ?_⟩
  · intro α size b h
    rfl
  · intro α size cap h b h1 hwc
    rw [MSliceBuilder.with_capacity] at hwc
    cases hg : gen_malloc size cap h with
    | error e => rw [hg] at hwc; cases hwc
    | ok r =>
      rw [hg] at hwc
      cases hwc
      rfl
  · intro est
    exact Nat.le_max_right est 1
  · intro α size b v h hsz hcap hpd hbound
    by_cases hfull : b.cap ≤ b.len
    · have hs0 : ¬ size = 0 := by omega
      have h20 : ¬ b.cap * 2 = 0 := by omega
      have hmul : checkedMul (b.cap * 2) size = some (b.cap * 2 * size) := by
        simp only [checkedMul]
        rw [if_pos hbound]
      refine ⟨⟨b.ptr, b.cap * 2, b.len + 1⟩,
        writeSlot (reallocPrim h b.ptr (b.cap * 2)).2 b.ptr b.len v, ?_, ?_, rfl, h20, ?_, ?_⟩
      · simp only [MSliceBuilder.push, if_pos hfull, gen_realloc, if_neg hs0, if_neg h20,
          if_neg hpd, hmul, reallocPrim, checkNull]
      · show 1 ≤ b.cap * 2
        omega
      · intro _
        refine ⟨rfl, ?_⟩
        show b.cap < b.cap * 2
        omega
      · intro hnf
        exact absurd hfull hnf
    · refine ⟨⟨b.ptr, b.cap, b.len + 1⟩, writeSlot h b.ptr b.len v, ?_, hcap, rfl, by omega,
        ?_, ?_⟩
      · simp only [MSliceBuilder.push, if_neg hfull]
      · intro hfl
        exact absurd hfl hfull
      · intro _
        rfl
  · intro α est l h0 hnext hcu hl i
    exact goodPath α (max est 1) l h0 (Nat.le_max_right est 1) hcu hnext hl i
  · intro α l h0 hne hnext hl i
    have hc1 : 1 ≤ l.length := by
      cases l with
      | nil => exact absurd rfl hne
      | cons x xs => simp
    exact goodPath α l.length l h0 hc1 (by omega) hnext hl i
  · intro α v h p hpd
    have hs0 : ¬ (1 : Nat) = 0 := by omega
    refine ⟨writeSlot (gen_free h p) dangling 0 v, ?_, ?_⟩
    · simp only [MSliceBuilder.push, gen_realloc, if_neg hs0]
      rfl
    · show (writeSlot (gen_free h p) dangling 0 v).frees = _
      rw [gen_free, if_neg hpd]
      rfl

/-- Witness for C10: the push-step clause and the intermediate-state clause of
the `from_iter` path evaluated at concrete inputs. -/
theorem builder_capacity_safety_witness :
    (∃ b1 h1, MSliceBuilder.push 1 ⟨2, 1, 1⟩ (9 : Nat)
        (Heap.mk (fun a => if a = 2 then some [some 8] else none) 3 1 [] [] []) = .ok (b1, h1) ∧
      1 ≤ b1.cap ∧ b1.ptr = (MSliceBuilder.mk 2 1 1 : MSliceBuilder Nat).ptr ∧
      (1 : Nat) * 2 ≠ 0 ∧
      ((1 : Nat) ≤ 1 → b1.cap = 1 * 2 ∧ 1 < b1.cap) ∧ (¬ (1 : Nat) ≤ 1 → b1.cap = 1)) ∧
    (∃ b1 h1, buildWith 1 (max 0 1) ([3, 4].take 2) (Heap.empty Nat) = .ok (b1, h1) ∧
      1 ≤ b1.cap ∧ b1.ptr ≠ dangling) := by
  constructor
  · exact builder_capacity_safety.2.2.2.1 Nat 1 ⟨2, 1, 1⟩ 9
      (Heap.mk (fun a => if a = 2 then some [some 8] else none) 3 1 [] [] [])
      (by decide) (by decide) (by decide) (by decide)
  · exact builder_capacity_safety.2.2.2.2.1 Nat 0 [3, 4] (Heap.empty Nat)
      (by decide) (by decide) (by decide) 2

end Mbox
